import Mathlib

/-!
Verification of the hierarchical organization store (`src/main.py`).

The program keeps a three-level forest (Office → Department → Staff) in one
relational table `offices (id, name, parent_id, type)` and offers:
  * `_create_random_data`  — a generator yielding 100 office subtrees with
    randomized fan-out (departments per office drawn from [40, 80], staff per
    department from [30, 1000]) and a single id counter;
  * `make_data`            — schema check/creation plus bulk load;
  * `_get_staffs_by_staff_id` — a two-phase recursive SQL query: an upward
    recursive CTE collecting the ancestor chain of the given id, an office
    selected by `OFFSET 2` into that chain, then departments and staff below;
  * `delete_all_data`      — full-table delete in one transaction.

The embedding below models the table as a `List Node`, the recursive CTE as a
fuelled breadth-first expansion, random draws as an explicit stream
`rnd : Nat → Nat` consumed at a cursor, and the transactional connection as a
committed/pending pair of states.
-/

namespace HierStruct

/-- A row of the `offices` table: `(id, parent_id, name, type)` with
`type` coded 1 = Office, 2 = Department, 3 = Staff. -/
structure Node where
  id : Nat
  parent_id : Option Nat
  name : String
  type : Nat
deriving DecidableEq, Repr

/-! ### The upward phase: the recursive CTE `ancestors` -/

/-- One iteration of the recursive CTE: join the current working set with
`offices` on `ancestors.parent_id = offices.id`. -/
def stepAnc (db : List Node) : List Node → List Node
  | [] => []
  | a :: rest =>
    (match a.parent_id with
     | none => []
     | some p => db.filter fun x => x.id == p) ++ stepAnc db rest

/-- Fuelled accumulation of the recursive CTE's rows, base rows first, then the
rows of each successive iteration.  The fuel only bounds the number of
iterations; for a store with unique ids and acyclic parent links the chain is
shorter than the number of rows, so `db.length + 1` iterations are exhaustive. -/
def ancRec (db : List Node) : Nat → List Node → List Node
  | 0, _ => []
  | fuel + 1, frontier =>
    if frontier.isEmpty then []
    else frontier ++ ancRec db fuel (stepAnc db frontier)

/-- All rows of the recursive CTE `ancestors` for a given start id:
the rows with `id = sid`, then their parents, and so on. -/
def ancestors (db : List Node) (sid : Nat) : List Node :=
  ancRec db (db.length + 1) (db.filter fun x => x.id == sid)

/-! ### The full query of `_get_staffs_by_staff_id` -/

/-- The CTE `descendant_department`: rows with `type = 2` whose `parent_id`
equals the scalar office id (a comparison with NULL matches nothing). -/
def descendant_department (db : List Node) (officeId : Option Nat) : List Node :=
  db.filter fun x => x.type == 2 &&
    officeId.elim false (fun oid => x.parent_id == some oid)

/-- The CTE `descendant_staff`: rows with `type = 3` whose `parent_id` is the
id of one of the given departments. -/
def descendant_staff (db : List Node) (depts : List Node) : List Node :=
  db.filter fun x => x.type == 3 &&
    x.parent_id.elim false (fun p => depts.any fun d => d.id == p)

/-- The SQL query of `_get_staffs_by_staff_id`: ancestors CTE, the scalar
subquery `SELECT id FROM ancestors OFFSET 2` (NULL when empty, an SQL error
when it yields more than one row), departments with `parent_id` equal to that
scalar, and the staff below those departments. -/
def staffQuery (db : List Node) (sid : Nat) : Except String (List String) :=
  let anc := (ancestors db sid).drop 2
  if 2 ≤ anc.length then
    .error "more than one row returned by a subquery used as an expression"
  else
    .ok ((descendant_staff db
      (descendant_department db (anc.head?.map Node.id))).map Node.name)

/-- The Python method `_get_staffs_by_staff_id`: runs the query inside
`try/except`; an SQL error is caught (rollback, message printed) and the
method falls through returning `None`. -/
def _get_staffs_by_staff_id (db : List Node) (sid : Nat) : Option (List String) :=
  match staffQuery db sid with
  | .ok res => some res
  | .error _ => none

/-! ### The generator `_create_random_data` -/

/-- Python's `random.randint a b`: a uniform draw from the inclusive range
`[a, b]`, modelled on an arbitrary seed value `s`. -/
def randint (a b : Nat) (s : Nat) : Nat := a + s % (b - a + 1)

/-- The inner staff loop: `count` staff rows for department `dept_id`,
continuing the id counter at `i` and the random cursor at `k`.
Returns the rows together with the final counter and cursor. -/
def genStaffs (dept_id : Nat) (rnd : Nat → Nat) : Nat → Nat → Nat → List Node × Nat × Nat
  | 0, i, k => ([], i, k)
  | n + 1, i, k =>
    let i' := i + 1
    let nm := "Сотрудник_" ++ toString (randint 1 10000000000 (rnd k))
    let rest := genStaffs dept_id rnd n i' (k + 1)
    (⟨i', some dept_id, nm, 3⟩ :: rest.1, rest.2)

/-- The department loop: `n` departments for office `office_id`, each followed
by its own staff block of `randint 30 1000` rows. -/
def genDepts (office_id : Nat) (rnd : Nat → Nat) : Nat → Nat → Nat → List Node × Nat × Nat
  | 0, i, k => ([], i, k)
  | n + 1, i, k =>
    let i' := i + 1
    let nm := "Отдел_" ++ toString (randint 1 10000000000 (rnd k))
    let sc := randint 30 1000 (rnd (k + 1))
    let s := genStaffs i' rnd sc i' (k + 2)
    let rest := genDepts office_id rnd n s.2.1 s.2.2
    (⟨i', some office_id, nm, 2⟩ :: (s.1 ++ rest.1), rest.2)

/-- The office loop: `n` offices, each with `parent_id` absent followed by its
department block of `randint 40 80` departments. -/
def genOffices (rnd : Nat → Nat) : Nat → Nat → Nat → List Node × Nat × Nat
  | 0, i, k => ([], i, k)
  | n + 1, i, k =>
    let i' := i + 1
    let nm := "Офис_" ++ toString (randint 1 10000000000 (rnd k))
    let dc := randint 40 80 (rnd (k + 1))
    let d := genDepts i' rnd dc i' (k + 2)
    let rest := genOffices rnd n d.2.1 d.2.2
    (⟨i', none, nm, 1⟩ :: (d.1 ++ rest.1), rest.2)

/-- `_create_random_data`: 100 office subtrees, id counter starting at 0 and
incremented once before each emitted row. -/
def _create_random_data (rnd : Nat → Nat) : List Node :=
  (genOffices rnd 100 0 0).1

/-! ### The transactional store: `make_data`, `delete_all_data` -/

/-- The connection's view of the store: the committed catalog flag and rows,
and the uncommitted (pending) versions seen inside the open transaction. -/
structure PgState where
  tableExists : Bool
  rows : List Node
  pendingTable : Bool
  pendingRows : List Node
deriving DecidableEq, Repr

/-- `conn.commit()`: the pending changes become the committed state. -/
def commitTx (s : PgState) : PgState :=
  { s with tableExists := s.pendingTable, rows := s.pendingRows }

/-- `conn.rollback()`: the pending changes are discarded. -/
def rollbackTx (s : PgState) : PgState :=
  { s with pendingTable := s.tableExists, pendingRows := s.rows }

/-- The result of one Python method call: the state of the store afterwards,
the message printed by an `except` block (if one ran), the exception escaping
the method (the blanket `except` clauses make this always `none`), and the
value returned to the caller. -/
structure OpResult (α : Type) where
  state : PgState
  printed : Option String
  raised : Option String
  ret : α
deriving Repr

/-- `delete_all_data` with an explicit failure point: `fail = some j` means the
`j`-th store call (0 = `DELETE FROM offices`, 1 = `commit`) raises.  On an
exception the method rolls back, prints the error and returns `None`. -/
def delete_all_data (s : PgState) (fail : Option Nat) : OpResult Unit :=
  if fail == some 0 then ⟨rollbackTx s, some "Error", none, ()⟩
  else
    let s1 := { s with pendingRows := [] }
    if fail == some 1 then ⟨rollbackTx s1, some "Error", none, ()⟩
    else ⟨commitTx s1, none, none, ()⟩

/-- `make_data` (synthetic branch) with an explicit failure point over its
store calls: 0 = catalog `SELECT EXISTS`, 1 = `CREATE TABLE` + `CREATE INDEX`
(only executed when the catalog check found no table), 2 = the `commit` right
after creation, 3 = the bulk `executemany` insert, 4 = the final `commit`.
`gen` is the sequence of rows produced by the generator.  Any exception lands
in the single `except` block: rollback of the active transaction, message
printed, `None` returned. -/
def make_data (s : PgState) (gen : List Node) (fail : Option Nat) : OpResult Unit :=
  if fail == some 0 then ⟨rollbackTx s, some "Error", none, ()⟩
  else if !s.pendingTable then
    if fail == some 1 then ⟨rollbackTx s, some "Error", none, ()⟩
    else
      let s1 := { s with pendingTable := true }
      if fail == some 2 then ⟨rollbackTx s1, some "Error", none, ()⟩
      else
        let s2 := commitTx s1
        if fail == some 3 then ⟨rollbackTx s2, some "Error", none, ()⟩
        else
          let s3 := { s2 with pendingRows := s2.pendingRows ++ gen }
          if fail == some 4 then ⟨rollbackTx s3, some "Error", none, ()⟩
          else ⟨commitTx s3, none, none, ()⟩
  else
    if fail == some 3 then ⟨rollbackTx s, some "Error", none, ()⟩
    else
      let s3 := { s with pendingRows := s.pendingRows ++ gen }
      if fail == some 4 then ⟨rollbackTx s3, some "Error", none, ()⟩
      else ⟨commitTx s3, none, none, ()⟩

/-- The `_get_staffs_by_staff_id` method at the transactional level:
`fail = some 0` makes the `execute`/`fetchall` pair raise; an SQL error from
the query itself (the scalar subquery yielding several rows) is an exception
as well.  Both land in the `except` block: rollback, print, return `None`. -/
def get_staffs_op (s : PgState) (sid : Nat) (fail : Option Nat) :
    OpResult (Option (List String)) :=
  if fail == some 0 then ⟨rollbackTx s, some "Error", none, none⟩
  else match staffQuery s.pendingRows sid with
    | .ok r => ⟨s, none, none, some r⟩
    | .error e => ⟨rollbackTx s, some ("Error: " ++ e), none, none⟩

/-- The schema-ensuring prefix of `make_data` in isolation: the catalog check
`SELECT EXISTS (... WHERE table_name = 'offices')` followed, only when the
table is absent, by `CREATE TABLE` + `CREATE INDEX` and a commit.  `CREATE
TABLE` on an existing table is the SQL error the catalog check avoids. -/
def createTableAndIndex (s : PgState) : Except String PgState :=
  if s.pendingTable then .error "relation offices already exists"
  else .ok { s with pendingTable := true }

/-- `ensure_schema`: check the catalog, create the table and index when absent,
then commit; skip creation entirely when the table is present. -/
def ensure_schema (s : PgState) : Except String PgState :=
  if s.pendingTable then .ok s
  else (createTableAndIndex s).map commitTx

/-! ### Property-side predicates (formalizations of the claims' vocabulary) -/

/-- The concrete six-node forest of the specification's scenario. -/
def db6 : List Node :=
  [⟨1, none, "HQ", 1⟩,
   ⟨2, some 1, "D2", 2⟩,
   ⟨3, some 1, "D3", 2⟩,
   ⟨4, some 2, "A", 3⟩,
   ⟨5, some 2, "B", 3⟩,
   ⟨6, some 3, "C", 3⟩]

/-- Typed well-formedness of a forest: every Office row has an absent
`parent_id`, every Department row's parent is the id of an Office row of the
same sequence, every Staff row's parent is the id of a Department row. -/
def wellFormedTypes (l : List Node) : Bool :=
  l.all fun x =>
    if x.type == 1 then x.parent_id == none
    else if x.type == 2 then l.any fun y => y.type == 1 && some y.id == x.parent_id
    else if x.type == 3 then l.any fun y => y.type == 2 && some y.id == x.parent_id
    else true

/-- Every office of the sequence has between 40 and 80 department children. -/
def officeFanoutOk (l : List Node) : Bool :=
  l.all fun x =>
    if x.type == 1 then
      let c := l.countP fun y => y.type == 2 && y.parent_id == some x.id
      decide (40 ≤ c) && decide (c ≤ 80)
    else true

/-- Every department of the sequence has between 30 and 1000 staff children. -/
def deptFanoutOk (l : List Node) : Bool :=
  l.all fun x =>
    if x.type == 2 then
      let c := l.countP fun y => y.type == 3 && y.parent_id == some x.id
      decide (30 ≤ c) && decide (c ≤ 1000)
    else true

/-- Walk the emission order keeping the ids already emitted (plus an initial
context `seen`); check that every row's parent reference is resolved by the
time the row appears. -/
def parentsBefore : List Nat → List Node → Bool
  | _, [] => true
  | seen, x :: xs =>
    (match x.parent_id with
     | none => true
     | some p => seen.contains p) && parentsBefore (x.id :: seen) xs

/-! ### Resolver lemmas -/

lemma ancRec_nil (db : List Node) : ∀ fuel, ancRec db fuel [] = [] := by
  intro fuel
  cases fuel <;> simp [ancRec]

lemma stepAnc_single_none (db : List Node) (n : Node) (h : n.parent_id = none) :
    stepAnc db [n] = [] := by
  simp [stepAnc, h]

lemma stepAnc_single_some (db : List Node) (n : Node) (p : Nat) (h : n.parent_id = some p) :
    stepAnc db [n] = db.filter fun x => x.id == p := by
  simp [stepAnc, h]

/-- A parentless row is its own whole ancestor chain. -/
lemma ancestors_single (db : List Node) (sid : Nat) (n : Node)
    (hf : db.filter (fun x => x.id == sid) = [n]) (hp : n.parent_id = none) :
    ancestors db sid = [n] := by
  unfold ancestors
  rw [hf]
  simp [ancRec, stepAnc_single_none db n hp, ancRec_nil]

/-- A row whose parent is a parentless row yields the two-element chain. -/
lemma ancestors_pair (db : List Node) (d o : Nat) (nd no : Node)
    (hfd : db.filter (fun x => x.id == d) = [nd])
    (hdo : nd.parent_id = some o)
    (hfo : db.filter (fun x => x.id == o) = [no])
    (hno : no.parent_id = none) :
    ancestors db d = [nd, no] := by
  have hmem : nd ∈ db := List.mem_of_mem_filter (l := db) (by rw [hfd]; exact List.mem_singleton_self nd)
  obtain ⟨m, hm⟩ : ∃ m, db.length = m + 1 := by
    have := List.length_pos_of_mem hmem
    exact ⟨db.length - 1, by omega⟩
  unfold ancestors
  rw [hfd, hm]
  simp only [ancRec, List.isEmpty_cons, Bool.false_eq_true, if_false,
    stepAnc_single_some db nd o hdo, hfo, stepAnc_single_none db no hno, ancRec_nil]
  rfl

lemma descendant_department_none (db : List Node) :
    descendant_department db none = [] := by
  simp [descendant_department]

lemma descendant_staff_nil (db : List Node) :
    descendant_staff db [] = [] := by
  rw [descendant_staff, List.filter_eq_nil_iff]
  intro a _
  cases h : a.parent_id <;> simp

/-- When the ancestor chain has at most two rows, `OFFSET 2` yields no row, the
scalar subquery is NULL, and the query returns the empty list successfully. -/
lemma staffQuery_drop_nil {db : List Node} {sid : Nat}
    (h : (ancestors db sid).drop 2 = []) : staffQuery db sid = .ok [] := by
  simp [staffQuery, h, descendant_department_none, descendant_staff_nil]

/-- The method wrapper returns `some []` whenever the chain is short. -/
lemma get_staffs_drop_nil {db : List Node} {sid : Nat}
    (h : (ancestors db sid).drop 2 = []) :
    _get_staffs_by_staff_id db sid = some [] := by
  unfold _get_staffs_by_staff_id
  rw [staffQuery_drop_nil h]

/-! ### Claims about the resolver -/

/-- Claim C1: in the concrete six-node forest (Office 1; Departments 2, 3;
Staff 4 "A", 5 "B" under 2; Staff 6 "C" under 3), the colleague resolution
returns the set {"A", "B", "C"} for each staff id 4, 5, 6 and the empty set
for the nonexistent id 999. -/
theorem claim_c1 :
    (_get_staffs_by_staff_id db6 4).map List.toFinset = some ({"A", "B", "C"} : Finset String) ∧
    (_get_staffs_by_staff_id db6 5).map List.toFinset = some ({"A", "B", "C"} : Finset String) ∧
    (_get_staffs_by_staff_id db6 6).map List.toFinset = some ({"A", "B", "C"} : Finset String) ∧
    (_get_staffs_by_staff_id db6 999).map List.toFinset = some (∅ : Finset String) := by
  decide

/-- Claim C2 counterexample: in the well-formed concrete forest `db6`,
resolving the Office id 1 directly returns the empty list, while resolving
staff id 4 of the same office returns ["A", "B", "C"] — the two results
differ, contradicting the claim that an Office id yields the same result as a
staff id of that office. -/
theorem claim_c2_cex :
    wellFormedTypes db6 = true ∧ (db6.map Node.id).Nodup ∧
    _get_staffs_by_staff_id db6 1 = some [] ∧
    _get_staffs_by_staff_id db6 4 = some ["A", "B", "C"] ∧
    _get_staffs_by_staff_id db6 1 ≠ _get_staffs_by_staff_id db6 4 := by
  decide

/-- Claim C2 (amended): when the target id belongs to an Office (a parentless
row), the upward phase terminates with the office as the sole ancestor, but
the `OFFSET 2` office selection then yields no row, so the resolution returns
the empty sequence — not the office's staff. -/
theorem claim_c2 (db : List Node) (sid : Nat) (n : Node)
    (hf : db.filter (fun x => x.id == sid) = [n]) (hp : n.parent_id = none) :
    ancestors db sid = [n] ∧ _get_staffs_by_staff_id db sid = some [] := by
  have ha := ancestors_single db sid n hf hp
  exact ⟨ha, get_staffs_drop_nil (by rw [ha]; rfl)⟩

/-- Claim C2 witness: the amended statement at Office id 1 of `db6`. -/
theorem claim_c2_witness :
    ancestors db6 1 = [⟨1, none, "HQ", 1⟩] ∧ _get_staffs_by_staff_id db6 1 = some [] :=
  claim_c2 db6 1 ⟨1, none, "HQ", 1⟩ (by decide) rfl

/-- Claim C3 counterexample: in the well-formed concrete forest `db6`,
resolving the Department id 2 returns the empty list, while resolving staff
id 4 of the same office returns ["A", "B", "C"] — contradicting the claim
that a Department id yields the same result as a Staff id of the office. -/
theorem claim_c3_cex :
    wellFormedTypes db6 = true ∧ (db6.map Node.id).Nodup ∧
    _get_staffs_by_staff_id db6 2 = some [] ∧
    _get_staffs_by_staff_id db6 4 = some ["A", "B", "C"] ∧
    _get_staffs_by_staff_id db6 2 ≠ _get_staffs_by_staff_id db6 4 := by
  decide

/-- Claim C3 (amended): the upward phase does walk the parent chain until a
parentless row rather than a fixed depth — starting from a Department the
chain is exactly department-then-office — but the office is then extracted at
the fixed offset 2 into that chain, so resolving a Department id returns the
empty sequence rather than the staff of its enclosing office. -/
theorem claim_c3 (db : List Node) (d o : Nat) (nd no : Node)
    (hfd : db.filter (fun x => x.id == d) = [nd])
    (hdo : nd.parent_id = some o)
    (hfo : db.filter (fun x => x.id == o) = [no])
    (hno : no.parent_id = none) :
    ancestors db d = [nd, no] ∧ _get_staffs_by_staff_id db d = some [] := by
  have ha := ancestors_pair db d o nd no hfd hdo hfo hno
  exact ⟨ha, get_staffs_drop_nil (by rw [ha]; rfl)⟩

/-- Claim C3 witness: the amended statement at Department id 2 of `db6`. -/
theorem claim_c3_witness :
    ancestors db6 2 = [⟨2, some 1, "D2", 2⟩, ⟨1, none, "HQ", 1⟩] ∧
    _get_staffs_by_staff_id db6 2 = some [] :=
  claim_c3 db6 2 1 ⟨2, some 1, "D2", 2⟩ ⟨1, none, "HQ", 1⟩ (by decide) rfl (by decide) rfl

/-- Claim C4: for every store state and every id that occurs nowhere in the
store, the ancestor chain is empty and the resolution returns the empty
sequence successfully (no error is raised and none is caught). -/
theorem claim_c4 (db : List Node) (sid : Nat) (h : ∀ x ∈ db, x.id ≠ sid) :
    ancestors db sid = [] ∧ _get_staffs_by_staff_id db sid = some [] := by
  have hf : db.filter (fun x => x.id == sid) = [] := by
    rw [List.filter_eq_nil_iff]
    intro a ha
    simpa using h a ha
  have ha : ancestors db sid = [] := by
    unfold ancestors
    rw [hf, ancRec_nil]
  exact ⟨ha, get_staffs_drop_nil (by rw [ha]; rfl)⟩

/-- Claim C4 witness: the nonexistent id 999 in the concrete forest `db6`. -/
theorem claim_c4_witness :
    ancestors db6 999 = [] ∧ _get_staffs_by_staff_id db6 999 = some [] :=
  claim_c4 db6 999 (by decide)

/-! ### Claims about the store lifecycle -/

lemma rollbackTx_eq_self {s : PgState} (hpt : s.pendingTable = s.tableExists)
    (hpr : s.pendingRows = s.rows) : rollbackTx s = s := by
  cases s
  simp only [rollbackTx]
  simp_all

/-- Claim C7: `ensure_schema` is idempotent — after a successful call, a
second call returns the same state unchanged without erroring (the catalog
check finds the table and skips creation), and the committed rows survive
both calls. -/
theorem claim_c7 (s s' : PgState)
    (hpr : s.pendingRows = s.rows)
    (h : ensure_schema s = .ok s') :
    ensure_schema s' = .ok s' ∧ s'.rows = s.rows ∧ s'.pendingRows = s.rows := by
  cases hp : s.pendingTable
  · simp only [ensure_schema, hp, Bool.false_eq_true, if_false, createTableAndIndex,
      Except.map, Except.ok.injEq] at h
    subst h
    simp [ensure_schema, commitTx, hpr]
  · simp only [ensure_schema, hp, if_true, Except.ok.injEq] at h
    subst h
    simp [ensure_schema, hp, hpr]

/-- Claim C7 witness: creating the schema once on an empty store with one
committed row, then checking the second call is a no-op. -/
theorem claim_c7_witness :
    ensure_schema ⟨true, [⟨1, none, "HQ", 1⟩], true, [⟨1, none, "HQ", 1⟩]⟩ =
      .ok ⟨true, [⟨1, none, "HQ", 1⟩], true, [⟨1, none, "HQ", 1⟩]⟩ ∧
    (⟨true, [⟨1, none, "HQ", 1⟩], true, [⟨1, none, "HQ", 1⟩]⟩ : PgState).rows =
      (⟨false, [⟨1, none, "HQ", 1⟩], false, [⟨1, none, "HQ", 1⟩]⟩ : PgState).rows ∧
    (⟨true, [⟨1, none, "HQ", 1⟩], true, [⟨1, none, "HQ", 1⟩]⟩ : PgState).pendingRows =
      (⟨false, [⟨1, none, "HQ", 1⟩], false, [⟨1, none, "HQ", 1⟩]⟩ : PgState).rows :=
  claim_c7 ⟨false, [⟨1, none, "HQ", 1⟩], false, [⟨1, none, "HQ", 1⟩]⟩
    ⟨true, [⟨1, none, "HQ", 1⟩], true, [⟨1, none, "HQ", 1⟩]⟩ rfl rfl

/-- Claim C8: a successful wipe leaves no committed or pending rows, and the
colleague resolution on any id (in particular every previously valid one)
afterwards returns the empty sequence. -/
theorem claim_c8 (s : PgState) (sid : Nat) :
    (delete_all_data s none).state.rows = [] ∧
    (delete_all_data s none).state.pendingRows = [] ∧
    _get_staffs_by_staff_id (delete_all_data s none).state.rows sid = some [] := by
  refine ⟨rfl, rfl, ?_⟩
  exact get_staffs_drop_nil (by rfl)

/-- Claim C9 counterexample: `make_data` on an empty store (no table yet) with
the bulk insert raising: an exception occurred (an error message was printed),
yet the resulting store differs from the pre-operation store — the table
creation was committed mid-operation and survives the rollback — and the
exception was not propagated to the caller. -/
theorem claim_c9_cex :
    (make_data ⟨false, [], false, []⟩ [⟨1, none, "X", 1⟩] (some 3)).printed.isSome = true ∧
    (make_data ⟨false, [], false, []⟩ [⟨1, none, "X", 1⟩] (some 3)).state ≠
      (⟨false, [], false, []⟩ : PgState) ∧
    (make_data ⟨false, [], false, []⟩ [⟨1, none, "X", 1⟩] (some 3)).state.tableExists = true ∧
    (make_data ⟨false, [], false, []⟩ [⟨1, none, "X", 1⟩] (some 3)).raised = none := by
  decide

/-- Claim C9 (amended): on any exception each store-facing operation rolls
back the active transaction and prints an error message, but the exception is
suppressed rather than propagated; the committed rows are always left as they
were, while `make_data`'s mid-operation schema commit may survive a later
failure, so only `delete_all_data` and the resolver restore the full
pre-operation state. -/
theorem claim_c9 (s : PgState) (gen : List Node) (sid : Nat) (fail : Option Nat)
    (hpt : s.pendingTable = s.tableExists) (hpr : s.pendingRows = s.rows) :
    ((delete_all_data s fail).printed.isSome → (delete_all_data s fail).state = s) ∧
    (delete_all_data s fail).raised = none ∧
    ((get_staffs_op s sid fail).printed.isSome → (get_staffs_op s sid fail).state = s) ∧
    (get_staffs_op s sid fail).raised = none ∧
    ((make_data s gen fail).printed.isSome → (make_data s gen fail).state.rows = s.rows) ∧
    (make_data s gen fail).raised = none := by
  obtain ⟨t, r, pt, pr⟩ := s
  dsimp only at hpt hpr
  subst hpt hpr
  refine ⟨?_, ?_, ?_, ?_, ?_, ?_⟩ <;>
    · simp only [delete_all_data, get_staffs_op, make_data, rollbackTx, commitTx]
      repeat' split
      all_goals simp_all [rollbackTx, commitTx]

/-- Claim C9 witness: the amended statement at a one-row store with the
delete statement raising. -/
theorem claim_c9_witness :
    ((delete_all_data ⟨true, [⟨1, none, "HQ", 1⟩], true, [⟨1, none, "HQ", 1⟩]⟩ (some 0)).printed.isSome →
      (delete_all_data ⟨true, [⟨1, none, "HQ", 1⟩], true, [⟨1, none, "HQ", 1⟩]⟩ (some 0)).state =
        ⟨true, [⟨1, none, "HQ", 1⟩], true, [⟨1, none, "HQ", 1⟩]⟩) ∧
    (delete_all_data ⟨true, [⟨1, none, "HQ", 1⟩], true, [⟨1, none, "HQ", 1⟩]⟩ (some 0)).raised = none ∧
    ((get_staffs_op ⟨true, [⟨1, none, "HQ", 1⟩], true, [⟨1, none, "HQ", 1⟩]⟩ 1 (some 0)).printed.isSome →
      (get_staffs_op ⟨true, [⟨1, none, "HQ", 1⟩], true, [⟨1, none, "HQ", 1⟩]⟩ 1 (some 0)).state =
        ⟨true, [⟨1, none, "HQ", 1⟩], true, [⟨1, none, "HQ", 1⟩]⟩) ∧
    (get_staffs_op ⟨true, [⟨1, none, "HQ", 1⟩], true, [⟨1, none, "HQ", 1⟩]⟩ 1 (some 0)).raised = none ∧
    ((make_data ⟨true, [⟨1, none, "HQ", 1⟩], true, [⟨1, none, "HQ", 1⟩]⟩ [] (some 0)).printed.isSome →
      (make_data ⟨true, [⟨1, none, "HQ", 1⟩], true, [⟨1, none, "HQ", 1⟩]⟩ [] (some 0)).state.rows =
        [⟨1, none, "HQ", 1⟩]) ∧
    (make_data ⟨true, [⟨1, none, "HQ", 1⟩], true, [⟨1, none, "HQ", 1⟩]⟩ [] (some 0)).raised = none :=
  claim_c9 ⟨true, [⟨1, none, "HQ", 1⟩], true, [⟨1, none, "HQ", 1⟩]⟩ [] 1 (some 0) rfl rfl

/-! ### Generator lemmas -/

lemma randint_le (a b s : Nat) : a ≤ randint a b s := Nat.le_add_right a _

lemma randint_ge (a b s : Nat) (h : a ≤ b) : randint a b s ≤ b := by
  have hm : s % (b - a + 1) < b - a + 1 := Nat.mod_lt _ (by omega)
  unfold randint
  omega

lemma genStaffs_succ (d : Nat) (rnd : Nat → Nat) (m i k : Nat) :
    genStaffs d rnd (m + 1) i k =
      (⟨i + 1, some d, "Сотрудник_" ++ toString (randint 1 10000000000 (rnd k)), 3⟩ ::
        (genStaffs d rnd m (i + 1) (k + 1)).1,
       (genStaffs d rnd m (i + 1) (k + 1)).2) := rfl

lemma genStaffs_len (d : Nat) (rnd : Nat → Nat) (n : Nat) :
    ∀ i k, (genStaffs d rnd n i k).1.length = n := by
  induction n with
  | zero => intro i k; rfl
  | succ m ih => intro i k; rw [genStaffs_succ]; simp [ih]

lemma genStaffs_final (d : Nat) (rnd : Nat → Nat) (n : Nat) :
    ∀ i k, (genStaffs d rnd n i k).2.1 = i + n := by
  induction n with
  | zero => intro i k; rfl
  | succ m ih => intro i k; rw [genStaffs_succ]; simp [ih]; omega

lemma genStaffs_map_id (d : Nat) (rnd : Nat → Nat) (n : Nat) :
    ∀ i k, (genStaffs d rnd n i k).1.map Node.id = List.range' (i + 1) n := by
  induction n with
  | zero => intro i k; rfl
  | succ m ih =>
    intro i k
    rw [genStaffs_succ]
    simp only [List.map_cons, ih, List.range'_succ]

lemma genStaffs_mem (d : Nat) (rnd : Nat → Nat) (n : Nat) :
    ∀ i k x, x ∈ (genStaffs d rnd n i k).1 → x.type = 3 ∧ x.parent_id = some d := by
  induction n with
  | zero => intro i k x hx; simp [genStaffs] at hx
  | succ m ih =>
    intro i k x hx
    rw [genStaffs_succ] at hx
    rcases List.mem_cons.mp hx with rfl | hx'
    · exact ⟨rfl, rfl⟩
    · exact ih _ _ x hx'

lemma genDepts_succ (o : Nat) (rnd : Nat → Nat) (m i k : Nat) :
    genDepts o rnd (m + 1) i k =
      (⟨i + 1, some o, "Отдел_" ++ toString (randint 1 10000000000 (rnd k)), 2⟩ ::
        ((genStaffs (i + 1) rnd (randint 30 1000 (rnd (k + 1))) (i + 1) (k + 2)).1 ++
         (genDepts o rnd m
           (genStaffs (i + 1) rnd (randint 30 1000 (rnd (k + 1))) (i + 1) (k + 2)).2.1
           (genStaffs (i + 1) rnd (randint 30 1000 (rnd (k + 1))) (i + 1) (k + 2)).2.2).1),
       (genDepts o rnd m
         (genStaffs (i + 1) rnd (randint 30 1000 (rnd (k + 1))) (i + 1) (k + 2)).2.1
         (genStaffs (i + 1) rnd (randint 30 1000 (rnd (k + 1))) (i + 1) (k + 2)).2.2).2) := rfl

/-- Combined structural facts about a department block: its ids are the
consecutive range right after the incoming counter, the final counter is the
incoming counter plus the block length, it holds exactly `n` department rows
(all with the office as parent), and every row is either such a department row
or a staff row whose parent is a department row of the same block. -/
lemma genDepts_spec (o : Nat) (rnd : Nat → Nat) (n : Nat) :
    ∀ i k,
      (genDepts o rnd n i k).1.map Node.id =
        List.range' (i + 1) (genDepts o rnd n i k).1.length ∧
      (genDepts o rnd n i k).2.1 = i + (genDepts o rnd n i k).1.length ∧
      List.countP (fun y => y.type == 2 && y.parent_id == some o) (genDepts o rnd n i k).1 = n ∧
      (∀ x ∈ (genDepts o rnd n i k).1,
        (x.type = 2 ∧ x.parent_id = some o) ∨
        (x.type = 3 ∧ ∃ y ∈ (genDepts o rnd n i k).1, y.type = 2 ∧ x.parent_id = some y.id)) := by
  induction n with
  | zero =>
    intro i k
    refine ⟨rfl, rfl, rfl, ?_⟩
    intro x hx
    simp [genDepts] at hx
  | succ m ih =>
    intro i k
    rw [genDepts_succ]
    set sc := randint 30 1000 (rnd (k + 1)) with hsc
    set S := genStaffs (i + 1) rnd sc (i + 1) (k + 2) with hS
    set R := genDepts o rnd m S.2.1 S.2.2 with hR
    have hslen : S.1.length = sc := by rw [hS]; exact genStaffs_len _ _ _ _ _
    have hsmap : S.1.map Node.id = List.range' (i + 1 + 1) sc := by
      rw [hS]; exact genStaffs_map_id _ _ _ _ _
    have hsfin : S.2.1 = i + 1 + sc := by rw [hS]; exact genStaffs_final _ _ _ _ _
    have hsmem : ∀ x ∈ S.1, x.type = 3 ∧ x.parent_id = some (i + 1) := by
      intro x hx; rw [hS] at hx; exact genStaffs_mem _ _ _ _ _ x hx
    obtain ⟨ihmap, ihfin, ihcnt, ihmem⟩ := ih S.2.1 S.2.2
    rw [← hR] at ihmap ihfin ihcnt ihmem
    refine ⟨?_, ?_, ?_, ?_⟩
    · simp only [List.map_cons, List.map_append, hsmap, ihmap, List.length_cons,
        List.length_append, hslen]
      rw [List.range'_succ]
      congr 1
      rw [show S.2.1 + 1 = (i + 1 + 1) + sc by omega, List.range'_append_1]
      congr 1
      omega
    · simp only [List.length_cons, List.length_append, hslen]
      rw [ihfin, hsfin]
      omega
    · simp only [List.countP_cons, List.countP_append, ihcnt]
      have hzero : List.countP (fun y => y.type == 2 && y.parent_id == some o) S.1 = 0 := by
        rw [List.countP_eq_zero]
        intro a ha
        have := (hsmem a ha).1
        simp [this]
      rw [hzero]
      simp
    · intro x hx
      rcases List.mem_cons.mp hx with rfl | hx'
      · exact Or.inl ⟨rfl, rfl⟩
      rcases List.mem_append.mp hx' with hxs | hxr
      · obtain ⟨ht, hp⟩ := hsmem x hxs
        exact Or.inr ⟨ht, ⟨⟨i + 1, some o,
          "Отдел_" ++ toString (randint 1 10000000000 (rnd k)), 2⟩,
          List.mem_cons_self _ _, rfl, hp⟩⟩
      · rcases ihmem x hxr with h2 | ⟨ht, y, hy, hyt, hyp⟩
        · exact Or.inl h2
        · exact Or.inr ⟨ht, y, by
            exact List.mem_cons_of_mem _ (List.mem_append_right _ hy), hyt, hyp⟩

/-- Ids of a block whose id projection is a consecutive range are bounded by
the range. -/
lemma mem_id_bounds {l : List Node} {s L : Nat} (hm : l.map Node.id = List.range' s L)
    {x : Node} (hx : x ∈ l) : s ≤ x.id ∧ x.id < s + L := by
  have hx' : x.id ∈ List.range' s L := by
    rw [← hm]
    exact List.mem_map_of_mem Node.id hx
  simpa [List.mem_range'_1] using hx'

/-- Every department row of a department block has between 30 and 1000 staff
children inside that block. -/
lemma genDepts_count3 (o : Nat) (rnd : Nat → Nat) (n : Nat) :
    ∀ i k x, x ∈ (genDepts o rnd n i k).1 → x.type = 2 →
      30 ≤ List.countP (fun y => y.type == 3 && y.parent_id == some x.id)
          (genDepts o rnd n i k).1 ∧
      List.countP (fun y => y.type == 3 && y.parent_id == some x.id)
          (genDepts o rnd n i k).1 ≤ 1000 := by
  induction n with
  | zero =>
    intro i k x hx
    simp [genDepts] at hx
  | succ m ih =>
    intro i k x hx hx2
    rw [genDepts_succ] at hx ⊢
    set sc := randint 30 1000 (rnd (k + 1)) with hsc
    set S := genStaffs (i + 1) rnd sc (i + 1) (k + 2) with hS
    set R := genDepts o rnd m S.2.1 S.2.2 with hR
    have hslen : S.1.length = sc := by rw [hS]; exact genStaffs_len _ _ _ _ _
    have hsfin : S.2.1 = i + 1 + sc := by rw [hS]; exact genStaffs_final _ _ _ _ _
    have hsmem : ∀ y ∈ S.1, y.type = 3 ∧ y.parent_id = some (i + 1) := by
      intro y hy; rw [hS] at hy; exact genStaffs_mem _ _ _ _ _ y hy
    obtain ⟨ihmap, ihfin, ihcnt, ihmem⟩ := genDepts_spec o rnd m S.2.1 S.2.2
    rw [← hR] at ihmap ihfin ihcnt ihmem
    have hRlow : ∀ y ∈ R.1, S.2.1 + 1 ≤ y.id := fun y hy => (mem_id_bounds ihmap hy).1
    rcases List.mem_cons.mp hx with rfl | hx'
    · -- the department row just emitted: its staff block is exactly its children
      have hcS : List.countP (fun y => y.type == 3 && y.parent_id == some (i + 1)) S.1 = sc := by
        rw [← hslen, List.countP_eq_length]
        intro a ha
        obtain ⟨h3, hp⟩ := hsmem a ha
        simp [h3, hp]
      have hcR : List.countP (fun y => y.type == 3 && y.parent_id == some (i + 1)) R.1 = 0 := by
        rw [List.countP_eq_zero]
        intro a ha
        rcases ihmem a ha with ⟨h2, _⟩ | ⟨h3, y, hy, hy2, hyp⟩
        · simp [h2]
        · have := hRlow y hy
          have hne : y.id ≠ i + 1 := by omega
          simp [h3, hyp, hne]
      simp only [List.countP_cons, List.countP_append, hcS, hcR]
      have h30 : 30 ≤ sc := randint_le _ _ _
      have h1000 : sc ≤ 1000 := randint_ge _ _ _ (by omega)
      simp only [show ((⟨i + 1, some o,
        "Отдел_" ++ toString (randint 1 10000000000 (rnd k)), 2⟩ : Node).type == 3) = false
        from rfl]
      simp
      omega
    rcases List.mem_append.mp hx' with hxs | hxr
    · exact absurd hx2 (by simp [(hsmem x hxs).1])
    · -- a department row deeper in the block: its children all lie there too
      have hxlow : S.2.1 + 1 ≤ x.id := hRlow x hxr
      obtain ⟨ihlo, ihhi⟩ := ih S.2.1 S.2.2 x (by rw [← hR]; exact hxr) hx2
      rw [← hR] at ihlo ihhi
      have hcS : List.countP (fun y => y.type == 3 && y.parent_id == some x.id) S.1 = 0 := by
        rw [List.countP_eq_zero]
        intro a ha
        obtain ⟨h3, hp⟩ := hsmem a ha
        have hne : (i + 1) ≠ x.id := by omega
        simp [h3, hp, hne]
      simp only [List.countP_cons, List.countP_append, hcS]
      have hhead : ((⟨i + 1, some o,
          "Отдел_" ++ toString (randint 1 10000000000 (rnd k)), 2⟩ : Node).type == 3) = false :=
        rfl
      simp [hhead]
      omega

lemma genOffices_succ (rnd : Nat → Nat) (m i k : Nat) :
    genOffices rnd (m + 1) i k =
      (⟨i + 1, none, "Офис_" ++ toString (randint 1 10000000000 (rnd k)), 1⟩ ::
        ((genDepts (i + 1) rnd (randint 40 80 (rnd (k + 1))) (i + 1) (k + 2)).1 ++
         (genOffices rnd m
           (genDepts (i + 1) rnd (randint 40 80 (rnd (k + 1))) (i + 1) (k + 2)).2.1
           (genDepts (i + 1) rnd (randint 40 80 (rnd (k + 1))) (i + 1) (k + 2)).2.2).1),
       (genOffices rnd m
         (genDepts (i + 1) rnd (randint 40 80 (rnd (k + 1))) (i + 1) (k + 2)).2.1
         (genDepts (i + 1) rnd (randint 40 80 (rnd (k + 1))) (i + 1) (k + 2)).2.2).2) := rfl

/-- Combined structural facts about an office block: consecutive ids, final
counter, exactly `n` office rows, and the typed shape of every row (an office
with no parent, a department pointing at an office of the block, or a staff
row pointing at a department of the block). -/
lemma genOffices_spec (rnd : Nat → Nat) (n : Nat) :
    ∀ i k,
      (genOffices rnd n i k).1.map Node.id =
        List.range' (i + 1) (genOffices rnd n i k).1.length ∧
      (genOffices rnd n i k).2.1 = i + (genOffices rnd n i k).1.length ∧
      List.countP (fun y => y.type == 1) (genOffices rnd n i k).1 = n ∧
      (∀ x ∈ (genOffices rnd n i k).1,
        (x.type = 1 ∧ x.parent_id = none) ∨
        (x.type = 2 ∧ ∃ y ∈ (genOffices rnd n i k).1, y.type = 1 ∧ x.parent_id = some y.id) ∨
        (x.type = 3 ∧ ∃ y ∈ (genOffices rnd n i k).1, y.type = 2 ∧ x.parent_id = some y.id)) := by
  induction n with
  | zero =>
    intro i k
    refine ⟨rfl, rfl, rfl, ?_⟩
    intro x hx
    simp [genOffices] at hx
  | succ m ih =>
    intro i k
    rw [genOffices_succ]
    set dc := randint 40 80 (rnd (k + 1)) with hdc
    set D := genDepts (i + 1) rnd dc (i + 1) (k + 2) with hD
    set R := genOffices rnd m D.2.1 D.2.2 with hR
    obtain ⟨dmap, dfin, dcnt, dmem⟩ := genDepts_spec (i + 1) rnd dc (i + 1) (k + 2)
    rw [← hD] at dmap dfin dcnt dmem
    obtain ⟨ihmap, ihfin, ihcnt, ihmem⟩ := ih D.2.1 D.2.2
    rw [← hR] at ihmap ihfin ihcnt ihmem
    refine ⟨?_, ?_, ?_, ?_⟩
    · simp only [List.map_cons, List.map_append, dmap, ihmap, List.length_cons,
        List.length_append]
      rw [List.range'_succ]
      congr 1
      rw [show D.2.1 + 1 = (i + 1 + 1) + D.1.length by omega, List.range'_append_1]
      congr 1
      omega
    · simp only [List.length_cons, List.length_append]
      rw [ihfin, dfin]
      omega
    · simp only [List.countP_cons, List.countP_append, ihcnt]
      have hzero : List.countP (fun y => y.type == 1) D.1 = 0 := by
        rw [List.countP_eq_zero]
        intro a ha
        rcases dmem a ha with ⟨h2, _⟩ | ⟨h3, _⟩
        · simp [h2]
        · simp [h3]
      rw [hzero]
      simp
    · intro x hx
      rcases List.mem_cons.mp hx with rfl | hx'
      · exact Or.inl ⟨rfl, rfl⟩
      rcases List.mem_append.mp hx' with hxd | hxr
      · rcases dmem x hxd with ⟨h2, hp⟩ | ⟨h3, y, hy, hy2, hyp⟩
        · exact Or.inr (Or.inl ⟨h2, ⟨⟨i + 1, none,
            "Офис_" ++ toString (randint 1 10000000000 (rnd k)), 1⟩,
            List.mem_cons_self _ _, rfl, hp⟩⟩)
        · exact Or.inr (Or.inr ⟨h3, y,
            List.mem_cons_of_mem _ (List.mem_append_left _ hy), hy2, hyp⟩)
      · rcases ihmem x hxr with h1 | ⟨h2, y, hy, hy1, hyp⟩ | ⟨h3, y, hy, hy2, hyp⟩
        · exact Or.inl h1
        · exact Or.inr (Or.inl ⟨h2, y,
            List.mem_cons_of_mem _ (List.mem_append_right _ hy), hy1, hyp⟩)
        · exact Or.inr (Or.inr ⟨h3, y,
            List.mem_cons_of_mem _ (List.mem_append_right _ hy), hy2, hyp⟩)

/-- Every office row of an office block has between 40 and 80 department
children inside that block. -/
lemma genOffices_count2 (rnd : Nat → Nat) (n : Nat) :
    ∀ i k x, x ∈ (genOffices rnd n i k).1 → x.type = 1 →
      40 ≤ List.countP (fun y => y.type == 2 && y.parent_id == some x.id)
          (genOffices rnd n i k).1 ∧
      List.countP (fun y => y.type == 2 && y.parent_id == some x.id)
          (genOffices rnd n i k).1 ≤ 80 := by
  induction n with
  | zero =>
    intro i k x hx
    simp [genOffices] at hx
  | succ m ih =>
    intro i k x hx hx1
    rw [genOffices_succ] at hx ⊢
    set dc := randint 40 80 (rnd (k + 1)) with hdc
    set D := genDepts (i + 1) rnd dc (i + 1) (k + 2) with hD
    set R := genOffices rnd m D.2.1 D.2.2 with hR
    obtain ⟨dmap, dfin, dcnt, dmem⟩ := genDepts_spec (i + 1) rnd dc (i + 1) (k + 2)
    rw [← hD] at dmap dfin dcnt dmem
    obtain ⟨ihmap, ihfin, ihcnt, ihmem⟩ := genOffices_spec rnd m D.2.1 D.2.2
    rw [← hR] at ihmap ihfin ihcnt ihmem
    have hRlow : ∀ y ∈ R.1, D.2.1 + 1 ≤ y.id := fun y hy => (mem_id_bounds ihmap hy).1
    have hDhigh : ∀ y ∈ D.1, y.id ≤ D.2.1 := by
      intro y hy
      have := (mem_id_bounds dmap hy).2
      omega
    have hhead : ((⟨i + 1, none,
        "Офис_" ++ toString (randint 1 10000000000 (rnd k)), 1⟩ : Node).type == 2) = false :=
      rfl
    rcases List.mem_cons.mp hx with rfl | hx'
    · -- the office just emitted: its department block holds its children
      have hcR : List.countP (fun y => y.type == 2 && y.parent_id == some (i + 1)) R.1 = 0 := by
        rw [List.countP_eq_zero]
        intro a ha
        rcases ihmem a ha with ⟨h1, _⟩ | ⟨h2, y, hy, _, hyp⟩ | ⟨h3, _⟩
        · simp [h1]
        · have := hRlow y hy
          have hne : y.id ≠ i + 1 := by omega
          simp [h2, hyp, hne]
        · simp [h3]
      simp only [List.countP_cons, List.countP_append, dcnt, hcR, hhead]
      have h40 : 40 ≤ dc := randint_le _ _ _
      have h80 : dc ≤ 80 := randint_ge _ _ _ (by omega)
      simp
      omega
    rcases List.mem_append.mp hx' with hxd | hxr
    · rcases dmem x hxd with ⟨h2, _⟩ | ⟨h3, _⟩
      · exact absurd hx1 (by simp [h2])
      · exact absurd hx1 (by simp [h3])
    · -- an office deeper in the block
      have hxlow : D.2.1 + 1 ≤ x.id := hRlow x hxr
      obtain ⟨ihlo, ihhi⟩ := ih D.2.1 D.2.2 x (by rw [← hR]; exact hxr) hx1
      rw [← hR] at ihlo ihhi
      have hcD : List.countP (fun y => y.type == 2 && y.parent_id == some x.id) D.1 = 0 := by
        rw [List.countP_eq_zero]
        intro a ha
        rcases dmem a ha with ⟨h2, hp⟩ | ⟨h3, _⟩
        · have hne : (i + 1) ≠ x.id := by
            have := (mem_id_bounds dmap ha).1
            omega
          simp [h2, hp, hne]
        · simp [h3]
      simp only [List.countP_cons, List.countP_append, hcD, hhead]
      simp
      omega

/-- Every department row of an office block has between 30 and 1000 staff
children inside that block. -/
lemma genOffices_count3 (rnd : Nat → Nat) (n : Nat) :
    ∀ i k x, x ∈ (genOffices rnd n i k).1 → x.type = 2 →
      30 ≤ List.countP (fun y => y.type == 3 && y.parent_id == some x.id)
          (genOffices rnd n i k).1 ∧
      List.countP (fun y => y.type == 3 && y.parent_id == some x.id)
          (genOffices rnd n i k).1 ≤ 1000 := by
  induction n with
  | zero =>
    intro i k x hx
    simp [genOffices] at hx
  | succ m ih =>
    intro i k x hx hx2
    rw [genOffices_succ] at hx ⊢
    set dc := randint 40 80 (rnd (k + 1)) with hdc
    set D := genDepts (i + 1) rnd dc (i + 1) (k + 2) with hD
    set R := genOffices rnd m D.2.1 D.2.2 with hR
    obtain ⟨dmap, dfin, dcnt, dmem⟩ := genDepts_spec (i + 1) rnd dc (i + 1) (k + 2)
    rw [← hD] at dmap dfin dcnt dmem
    obtain ⟨ihmap, ihfin, ihcnt, ihmem⟩ := genOffices_spec rnd m D.2.1 D.2.2
    rw [← hR] at ihmap ihfin ihcnt ihmem
    have hRlow : ∀ y ∈ R.1, D.2.1 + 1 ≤ y.id := fun y hy => (mem_id_bounds ihmap hy).1
    have hDhigh : ∀ y ∈ D.1, y.id ≤ D.2.1 := by
      intro y hy
      have := (mem_id_bounds dmap hy).2
      omega
    have hhead : ((⟨i + 1, none,
        "Офис_" ++ toString (randint 1 10000000000 (rnd k)), 1⟩ : Node).type == 3) = false :=
      rfl
    rcases List.mem_cons.mp hx with rfl | hx'
    · exact absurd hx2 (by simp)
    rcases List.mem_append.mp hx' with hxd | hxr
    · -- a department of the office just emitted: its staff lie in the same
      -- department block
      have hxhigh : x.id ≤ D.2.1 := hDhigh x hxd
      obtain ⟨dlo, dhi⟩ := genDepts_count3 (i + 1) rnd dc (i + 1) (k + 2) x
        (by rw [← hD]; exact hxd) hx2
      rw [← hD] at dlo dhi
      have hcR : List.countP (fun y => y.type == 3 && y.parent_id == some x.id) R.1 = 0 := by
        rw [List.countP_eq_zero]
        intro a ha
        rcases ihmem a ha with ⟨h1, _⟩ | ⟨h2, _⟩ | ⟨h3, y, hy, _, hyp⟩
        · simp [h1]
        · simp [h2]
        · have := hRlow y hy
          have hne : y.id ≠ x.id := by omega
          simp [h3, hyp, hne]
      simp only [List.countP_cons, List.countP_append, hcR, hhead]
      simp
      omega
    · -- a department of a later office
      have hxlow : D.2.1 + 1 ≤ x.id := hRlow x hxr
      obtain ⟨ihlo, ihhi⟩ := ih D.2.1 D.2.2 x (by rw [← hR]; exact hxr) hx2
      rw [← hR] at ihlo ihhi
      have hcD : List.countP (fun y => y.type == 3 && y.parent_id == some x.id) D.1 = 0 := by
        rw [List.countP_eq_zero]
        intro a ha
        rcases dmem a ha with ⟨h2, _⟩ | ⟨h3, y, hy, _, hyp⟩
        · simp [h2]
        · have := hDhigh y hy
          have hne : y.id ≠ x.id := by omega
          simp [h3, hyp, hne]
      simp only [List.countP_cons, List.countP_append, hcD, hhead]
      simp
      omega

/-! ### Emission-order lemmas -/

lemma contains_of_mem {l : List Nat} {a : Nat} (h : a ∈ l) : l.contains a = true := by
  induction l with
  | nil => cases h
  | cons b t ih =>
    rw [List.contains_cons, Bool.or_eq_true]
    rcases List.mem_cons.mp h with rfl | h'
    · exact Or.inl (by simp)
    · exact Or.inr (ih h')

lemma parentsBefore_append (a b : List Node) :
    ∀ seen, parentsBefore seen (a ++ b) =
      (parentsBefore seen a && parentsBefore (a.reverse.map Node.id ++ seen) b) := by
  induction a with
  | nil => intro seen; simp [parentsBefore]
  | cons x a' ih =>
    intro seen
    rw [List.cons_append, parentsBefore, parentsBefore, ih (x.id :: seen)]
    simp [List.reverse_cons, List.map_append, Bool.and_assoc, List.append_assoc]

lemma parentsBefore_mono (l : List Node) :
    ∀ seen seen', seen ⊆ seen' → parentsBefore seen l = true → parentsBefore seen' l = true := by
  induction l with
  | nil => intro seen seen' _ _; rfl
  | cons x t ih =>
    intro seen seen' hsub h
    rw [parentsBefore, Bool.and_eq_true] at h ⊢
    refine ⟨?_, ih _ _ (List.cons_subset_cons x.id hsub) h.2⟩
    rcases hp : x.parent_id with _ | p
    · rfl
    · rw [hp] at h
      have hmem : p ∈ seen := by
        have := h.1
        simpa [List.elem_eq_mem] using this
      exact contains_of_mem (hsub hmem)

lemma parentsBefore_genStaffs (d : Nat) (rnd : Nat → Nat) (n : Nat) :
    ∀ i k seen, seen.contains d = true →
      parentsBefore seen (genStaffs d rnd n i k).1 = true := by
  induction n with
  | zero => intro i k seen _; rfl
  | succ m ih =>
    intro i k seen hd
    rw [genStaffs_succ]
    rw [parentsBefore, Bool.and_eq_true]
    refine ⟨hd, ih _ _ _ ?_⟩
    simpa using Or.inr hd

lemma parentsBefore_genDepts (o : Nat) (rnd : Nat → Nat) (n : Nat) :
    ∀ i k seen, seen.contains o = true →
      parentsBefore seen (genDepts o rnd n i k).1 = true := by
  induction n with
  | zero => intro i k seen _; rfl
  | succ m ih =>
    intro i k seen ho
    rw [genDepts_succ]
    rw [parentsBefore, Bool.and_eq_true]
    refine ⟨ho, ?_⟩
    rw [parentsBefore_append, Bool.and_eq_true]
    constructor
    · exact parentsBefore_genStaffs _ _ _ _ _ _ (by simp)
    · refine ih _ _ _ ?_
      have hmem : o ∈ ((genStaffs (i + 1) rnd (randint 30 1000 (rnd (k + 1)))
          (i + 1) (k + 2)).1.reverse.map Node.id ++ (i + 1) :: seen) := by
        refine List.mem_append_right _ (List.mem_cons_of_mem _ ?_)
        simpa [List.elem_eq_mem] using ho
      exact contains_of_mem hmem

lemma parentsBefore_genOffices (rnd : Nat → Nat) (n : Nat) :
    ∀ i k seen, parentsBefore seen (genOffices rnd n i k).1 = true := by
  induction n with
  | zero => intro i k seen; rfl
  | succ m ih =>
    intro i k seen
    rw [genOffices_succ]
    rw [parentsBefore, Bool.and_eq_true]
    refine ⟨rfl, ?_⟩
    rw [parentsBefore_append, Bool.and_eq_true]
    exact ⟨parentsBefore_genDepts _ _ _ _ _ _ (by simp), ih _ _ _⟩

/-! ### Claims about the generator -/

/-- Claim C5: every generated forest holds exactly 100 office rows; the ids
are exactly 1, 2, 3, … in emission order (one counter incremented once per
row, hence globally unique and strictly increasing); every office has between
40 and 80 department children and every department between 30 and 1000 staff
children. -/
theorem claim_c5 (rnd : Nat → Nat) :
    (_create_random_data rnd).countP (fun x => x.type == 1) = 100 ∧
    (_create_random_data rnd).map Node.id = List.range' 1 (_create_random_data rnd).length ∧
    officeFanoutOk (_create_random_data rnd) = true ∧
    deptFanoutOk (_create_random_data rnd) = true := by
  unfold _create_random_data officeFanoutOk deptFanoutOk
  obtain ⟨hmap, -, hcnt, -⟩ := genOffices_spec rnd 100 0 0
  refine ⟨hcnt, by simpa using hmap, ?_, ?_⟩
  · rw [List.all_eq_true]
    intro x hx
    by_cases h1 : (x.type == 1) = true
    · obtain ⟨hlo, hhi⟩ := genOffices_count2 rnd 100 0 0 x hx (by simpa using h1)
      simp [h1, hlo, hhi]
    · simp [h1]
  · rw [List.all_eq_true]
    intro x hx
    by_cases h2 : (x.type == 2) = true
    · obtain ⟨hlo, hhi⟩ := genOffices_count3 rnd 100 0 0 x hx (by simpa using h2)
      simp [h2, hlo, hhi]
    · simp [h2]

/-- Claim C6: every generated forest is well formed — offices (type 1) have an
absent `parent_id`, each department's (type 2) parent is the id of an office
of the sequence, each staff row's (type 3) parent is the id of a department of
the sequence, and the ids are globally unique. -/
theorem claim_c6 (rnd : Nat → Nat) :
    wellFormedTypes (_create_random_data rnd) = true ∧
    ((_create_random_data rnd).map Node.id).Nodup := by
  unfold _create_random_data
  obtain ⟨hmap, -, -, hmem⟩ := genOffices_spec rnd 100 0 0
  constructor
  · rw [wellFormedTypes, List.all_eq_true]
    intro x hx
    rcases hmem x hx with ⟨h1, hp⟩ | ⟨h2, y, hy, hy1, hyp⟩ | ⟨h3, y, hy, hy2, hyp⟩
    · simp [h1, hp]
    · rw [h2]
      simp only [show ((2 : Nat) == 1) = false from rfl, Bool.false_eq_true, if_false,
        show ((2 : Nat) == 2) = true from rfl, if_true]
      rw [List.any_eq_true]
      exact ⟨y, hy, by simp [hy1, hyp]⟩
    · rw [h3]
      simp only [show ((3 : Nat) == 1) = false from rfl, Bool.false_eq_true, if_false,
        show ((3 : Nat) == 2) = false from rfl,
        show ((3 : Nat) == 3) = true from rfl, if_true]
      rw [List.any_eq_true]
      exact ⟨y, hy, by simp [hy2, hyp]⟩
  · rw [hmap]
    exact List.nodup_range' _ _

/-- Claim C10: in every generated sequence each row's parent reference is
resolved by the rows already emitted before it — walking the sequence with the
set of previously emitted ids, every non-absent `parent_id` is found in that
set. -/
theorem claim_c10 (rnd : Nat → Nat) :
    parentsBefore [] (_create_random_data rnd) = true :=
  parentsBefore_genOffices rnd 100 0 0 []

end HierStruct
